import Mathlib

/-!
Verification of the fga-sync service core: the relationship synchronizer
(`SyncObjectTuples`), the cached batch-check engine (`CheckRelationships`),
the check-line codec (`parseCheckRequest` / `ExtractCheckRequests`) and the
message handlers (`accessCheckHandler`, `processDeleteAllAccessMessage`),
shallowly embedded from the Go source.

Modelling conventions:
* `ClientTupleKey` / `ClientTupleKeyWithoutCondition` become `TupleKey`;
  `ClientCheckRequest` / `ClientBatchCheckItem` become `Check`.
* The NATS KV bucket is an oracle `String → CacheLookup` giving, for each key,
  the outcome of `Get` (`notFound`, transport error, or a value with its
  server-assigned creation timestamp, modelled as a `Nat`; the zero time is
  `0`).
* The OpenFGA gateway's `Read` result is passed in as the list `current`;
  `Read`/`Write` failures are modelled by the booleans `readFails` /
  `writeFails`; the `BatchCheck` response map is passed as an association
  list whose order stands for Go's (unspecified) map iteration order,
  together with a `batchErr` flag for a failed call.
* Side effects are recorded in an event trace (`SyncEvent`): the gateway
  `Read` and `Write` calls, the `Put("inv", …)` invalidation write, and the
  *launch* of each asynchronous seed goroutine (`seedSpawn`).  The spawn is
  the only point at which the seed `PutString` is ordered relative to the
  surrounding code, so its trace position records everything the Go memory
  model guarantees about when the seed write may execute.
* Go maps keyed by strings are association lists with Go's assignment
  (overwrite) and delete semantics; keys are unique by construction.
-/

/-- A relationship tuple `(user, relation, object)`; field order follows the
Go `ClientTupleKey` struct. -/
structure TupleKey where
  user : String
  relation : String
  object : String
deriving DecidableEq, Repr

/-- One check request `(user, relation, object)` (`ClientCheckRequest` and
`ClientBatchCheckItem` carry the same three fields). -/
structure Check where
  user : String
  relation : String
  object : String
deriving DecidableEq, Repr

/-- The canonical text form `object#relation@user` of a check. -/
def relationKeyOf (c : Check) : String :=
  c.object ++ "#" ++ c.relation ++ "@" ++ c.user

/-- The base32 standard alphabet (RFC 4648), as used by Go's
`base32.StdEncoding`. -/
def b32Char (n : Nat) : Char :=
  "ABCDEFGHIJKLMNOPQRSTUVWXYZ234567".data.getD n 'A'

/-- The eight bits of one byte, most significant first. -/
def byteBits (b : Nat) : List Bool :=
  [b.testBit 7, b.testBit 6, b.testBit 5, b.testBit 4,
   b.testBit 3, b.testBit 2, b.testBit 1, b.testBit 0]

/-- Split a bit stream into 5-bit groups; the final group may be shorter. -/
def chunk5 : List Bool → List (List Bool)
  | [] => []
  | b1 :: b2 :: b3 :: b4 :: b5 :: rest => [b1, b2, b3, b4, b5] :: chunk5 rest
  | bs => [bs]

/-- Value of one 5-bit group, padded on the right with zero bits (RFC 4648). -/
def groupVal (g : List Bool) : Nat :=
  (g ++ List.replicate (5 - g.length) false).foldl
    (fun a b => 2 * a + (if b then 1 else 0)) 0

/-- Base32 (standard alphabet) without padding of a byte sequence, as produced
by Go's `base32.StdEncoding.WithPadding(base32.NoPadding).EncodeToString`. -/
def base32NoPad (bytes : List Nat) : String :=
  String.mk ((chunk5 (bytes.flatMap byteBits)).map (fun g => b32Char (groupVal g)))

/-- Cache key of a relation key: `"rel." + base32-no-padding(relationKey)`,
encoding the UTF-8 bytes of the relation key. -/
def cacheKeyOf (relationKey : String) : String :=
  "rel." ++ base32NoPad (relationKey.toUTF8.data.toList.map (fun b => b.toNat))

/-- Go map assignment `m[key] = v` on an association list: overwrite the
binding if the key is present, otherwise add it. -/
def insertAssoc (m : List (String × TupleKey)) (key : String) (v : TupleKey) :
    List (String × TupleKey) :=
  match m with
  | [] => [(key, v)]
  | (k, w) :: rest =>
    if k = key then (k, v) :: rest else (k, w) :: insertAssoc rest key v

/-- Go map `delete(m, key)` on an association list (keys are unique by
construction, so removing the first binding suffices). -/
def eraseAssoc (m : List (String × TupleKey)) (key : String) :
    List (String × TupleKey) :=
  match m with
  | [] => []
  | (k, w) :: rest =>
    if k = key then rest else (k, w) :: eraseAssoc rest key

/-- The loop of `getRelationsMap`, carrying the map built so far: an empty
`object` field is replaced by the target object; a tuple naming a different
object is skipped; on key collision the later entry overwrites the earlier
one. -/
def getRelationsMapGo (object : String) (m : List (String × TupleKey)) :
    List TupleKey → List (String × TupleKey)
  | [] => m
  | relation :: rest =>
    if relation.object = "" then
      let r : TupleKey := { relation with object := object }
      getRelationsMapGo object (insertAssoc m (r.relation ++ "@" ++ r.user) r) rest
    else if relation.object ≠ object then getRelationsMapGo object m rest
    else
      getRelationsMapGo object
        (insertAssoc m (relation.relation ++ "@" ++ relation.user) relation) rest

/-- `FgaService.getRelationsMap`: normalize the desired tuples into a map
keyed by `relation + "@" + user`. -/
def getRelationsMap (object : String) (relations : List TupleKey) :
    List (String × TupleKey) :=
  getRelationsMapGo object [] relations

/-- The observable operations of one `SyncObjectTuples` call, in program
order: the gateway `Read`, the launch (`go` statement) of an asynchronous
seed `PutString` for a cache key, the gateway `Write`, and the
`Put("inv", …)` invalidation write. -/
inductive SyncEvent where
  | readEv : SyncEvent
  | seedSpawn : String → SyncEvent
  | writeEv : SyncEvent
  | putInv : SyncEvent
deriving DecidableEq, Repr

/-- Result of one `SyncObjectTuples` call: the returned `writes` and
`deletes` lists, whether an error was returned, the trace of operations in
program order, and the stored tuple set after the call (the gateway `Write`
is atomic: on failure the stored set is unchanged). -/
structure SyncOut where
  writes : List TupleKey
  deletes : List TupleKey
  err : Bool
  trace : List SyncEvent
  store : List TupleKey
deriving DecidableEq, Repr

/-- The diff loop of `SyncObjectTuples`: walk the current tuples; a tuple
whose `relation@user` key is in the desired map is a match and is removed
from the map; otherwise a delete entry `(user, relation, target-object)` is
appended.  Returns the remaining map and the deletes list. -/
def diffLoop (object : String) (current : List TupleKey)
    (m : List (String × TupleKey)) :
    List (String × TupleKey) × List TupleKey :=
  match current with
  | [] => (m, [])
  | t :: rest =>
    let key := t.relation ++ "@" ++ t.user
    match m.lookup key with
    | some _ => diffLoop object rest (eraseAssoc m key)
    | none =>
      let (m2, ds) := diffLoop object rest m
      (m2, { user := t.user, relation := t.relation, object := object } :: ds)

/-- Character-list version of `strings.HasPrefix`: does the second list
start with the first? -/
def charsStart : List Char → List Char → Bool
  | [], _ => true
  | _ :: _, [] => false
  | p :: ps, s :: ss => p == s && charsStart ps ss

/-- Go's `strings.HasPrefix(s, pre)`. -/
def strStartsWith (s pre : String) : Bool := charsStart pre.data s.data

/-- The writes loop of `SyncObjectTuples`: every entry remaining in the
desired map becomes a write; for a write whose `user` begins with `user:`
(the wildcard `user:*` included) a seed goroutine for its cache key is
launched at this point. -/
def writesLoop (m : List (String × TupleKey)) : List TupleKey × List SyncEvent :=
  match m with
  | [] => ([], [])
  | (_, r) :: rest =>
    let (ws, evs) := writesLoop rest
    if strStartsWith r.user "user:" then
      (r :: ws,
        SyncEvent.seedSpawn
          (cacheKeyOf (r.object ++ "#" ++ r.relation ++ "@" ++ r.user)) :: evs)
    else (r :: ws, evs)

/-- The stored set after an atomic `Write({writes, deletes})` succeeds:
tuples matching a delete triple are removed, then the writes are added. -/
def applyWrite (current writes deletes : List TupleKey) : List TupleKey :=
  current.filter (fun t => ! deletes.contains t) ++ writes

/-- `FgaService.SyncObjectTuples`: normalize the desired list, read the
current tuples, diff, early-exit when there is nothing to write or delete,
otherwise issue one batch `Write` followed (on success) by the `Put("inv")`
invalidation write.  Seed goroutines are launched where the source launches
them: inside the writes loop, before the `Write`. -/
def SyncObjectTuples (object : String) (relations current : List TupleKey)
    (readFails writeFails : Bool) : SyncOut :=
  let relationsMap := getRelationsMap object relations
  if readFails then
    { writes := [], deletes := [], err := true,
      trace := [SyncEvent.readEv], store := current }
  else
    let (remaining, deletes) := diffLoop object current relationsMap
    let (writes, seedEvs) := writesLoop remaining
    if writes = [] ∧ deletes = [] then
      { writes := writes, deletes := deletes, err := false,
        trace := SyncEvent.readEv :: seedEvs, store := current }
    else if writeFails then
      { writes := writes, deletes := deletes, err := true,
        trace := SyncEvent.readEv :: seedEvs ++ [SyncEvent.writeEv],
        store := current }
    else
      { writes := writes, deletes := deletes, err := false,
        trace := SyncEvent.readEv :: seedEvs ++ [SyncEvent.writeEv, SyncEvent.putInv],
        store := applyWrite current writes deletes }

/-- Outcome of one cache `Get`: key not found, a transport error, or an
entry `(value, created)` with its server-assigned creation timestamp. -/
inductive CacheLookup where
  | notFound : CacheLookup
  | errLookup : CacheLookup
  | found : String → Nat → CacheLookup
deriving DecidableEq, Repr

/-- Result of `getLastCacheInvalidation`. -/
inductive InvRes where
  | ok : Nat → InvRes
  | fail : String → InvRes
deriving DecidableEq, Repr

/-- `FgaService.getLastCacheInvalidation`: `Get("inv")`; a missing key means
the zero time (no entry is ever stale), any other error aborts. -/
def getLastCacheInvalidation (cache : String → CacheLookup) : InvRes :=
  match cache "inv" with
  | CacheLookup.notFound => InvRes.ok 0
  | CacheLookup.errLookup => InvRes.fail "cache get failed"
  | CacheLookup.found _ created => InvRes.ok created

/-- State produced by the cache-lookup pass of `CheckRelationships`: the
response bytes built so far, the tuples still to be checked live, and the
per-call increments of the `cache_hits`, `cache_stale_hits` and
`cache_misses` counters. -/
structure LookupOut where
  message : String
  toCheck : List Check
  hits : Nat
  staleHits : Nat
  misses : Nat
deriving DecidableEq, Repr

/-- The cache-lookup pass of `CheckRelationships`, in input order: a missing
key is a miss (goes to `toCheck`); a transport error sends the current and
all remaining checks to `toCheck` and stops the pass; a found entry is stale
(goes to `toCheck`) exactly when the invalidation time is strictly after its
creation time (`lastInvalidation.After(entry.Created())`), and otherwise is a
hit whose line `relationKey<TAB>value<LF>` is appended to the message. -/
def lookupPass (cache : String → CacheLookup) (lastInvalidation : Nat) :
    List Check → LookupOut
  | [] => { message := "", toCheck := [], hits := 0, staleHits := 0, misses := 0 }
  | c :: rest =>
    match cache (cacheKeyOf (relationKeyOf c)) with
    | CacheLookup.notFound =>
      let r := lookupPass cache lastInvalidation rest
      { r with toCheck := c :: r.toCheck, misses := r.misses + 1 }
    | CacheLookup.errLookup =>
      { message := "", toCheck := c :: rest, hits := 0, staleHits := 0, misses := 0 }
    | CacheLookup.found v created =>
      if created < lastInvalidation then
        let r := lookupPass cache lastInvalidation rest
        { r with toCheck := c :: r.toCheck, staleHits := r.staleHits + 1 }
      else
        let r := lookupPass cache lastInvalidation rest
        { r with message := relationKeyOf c ++ "\t" ++ v ++ "\n" ++ r.message,
                 hits := r.hits + 1 }

/-- Correlation-id assignment: decimal ids starting at `"1"`, in the order
the checks appear in `toCheck` (`fmt.Sprintf("%d", idx+1)`), paired with the
check each id corresponds to. -/
def mkCorrMap (toCheck : List Check) : List (String × Check) :=
  toCheck.enum.map (fun p => (Nat.repr (p.1 + 1), p.2))

/-- `FgaService.appendToMessage`: for each correlation id in the batch-check
response (iterated in the order of the `result` list, standing for Go's map
iteration order), look up its check — unknown ids are skipped — and append
`relationKey<TAB>allowed<LF>` to the message. -/
def appendToMessage (message : String) (result : List (String × Bool))
    (mapCorr : List (String × Check)) : String :=
  match result with
  | [] => message
  | (cid, allowed) :: rest =>
    match mapCorr.lookup cid with
    | none => appendToMessage message rest mapCorr
    | some req =>
      appendToMessage
        (message ++ (relationKeyOf req ++ "\t" ++
          (if allowed then "true" else "false") ++ "\n"))
        rest mapCorr

/-- Go's `message[:len(message)-1]`: drop the final byte (always the final
newline here). -/
def trimLastByte (s : String) : String := String.mk s.data.dropLast

/-- Result of `CheckRelationships`: the response bytes or an error. -/
inductive CheckRes where
  | ok : String → CheckRes
  | fail : String → CheckRes
deriving DecidableEq, Repr

/-- `FgaService.CheckRelationships`: empty input returns an empty result;
read the invalidation timestamp (aborting on a cache transport error), run
the cache-lookup pass, return the trimmed message when nothing is left to
check, otherwise assign correlation ids, call `BatchCheck` (an error or an
empty result map aborts), merge the responses and return the trimmed
message. -/
def CheckRelationships (cache : String → CacheLookup) (batchErr : Bool)
    (batchResult : List (String × Bool)) (tuples : List Check) : CheckRes :=
  if tuples = [] then CheckRes.ok ""
  else
    match getLastCacheInvalidation cache with
    | InvRes.fail e => CheckRes.fail e
    | InvRes.ok lastInvalidation =>
      let r := lookupPass cache lastInvalidation tuples
      if r.toCheck = [] then
        if r.message.length < 1 then
          CheckRes.fail "batch check cached-built message empty"
        else CheckRes.ok (trimLastByte r.message)
      else
        let mapCorr := mkCorrMap r.toCheck
        if batchErr then CheckRes.fail "batch check request failed"
        else if batchResult = [] then
          CheckRes.fail "batch check response was nil or empty"
        else
          let message := appendToMessage r.message batchResult mapCorr
          if message.length < 1 then
            CheckRes.fail "batch check response message empty"
          else CheckRes.ok (trimLastByte message)

/-- `bytes.Cut(s, sep)` for a one-byte separator: split around the first
occurrence, or fail when the separator does not occur. -/
def cutChar : List Char → Char → Option (List Char × List Char)
  | [], _ => none
  | c :: rest, sep =>
    if c = sep then some ([], rest)
    else
      match cutChar rest sep with
      | none => none
      | some (a, b) => some (c :: a, b)

/-- `FgaService.parseCheckRequest`: cut the line at the first `@` (left part
and user), then cut the left part at the first `#` (object and relation); a
missing separator is a parse error. -/
def parseCheckRequest (line : String) : Option Check :=
  match cutChar line.data '@' with
  | none => none
  | some (firstPart, userPart) =>
    match cutChar firstPart '#' with
    | none => none
    | some (objectPart, relationPart) =>
      some { user := String.mk userPart, relation := String.mk relationPart,
             object := String.mk objectPart }

/-- The line loop of `ExtractCheckRequests`: skip empty lines, abort the
whole batch on the first parse error. -/
def extractLoop : List String → Option (List Check)
  | [] => some []
  | l :: rest =>
    if l = "" then extractLoop rest
    else
      match parseCheckRequest l with
      | none => none
      | some c =>
        match extractLoop rest with
        | none => none
        | some cs => some (c :: cs)

/-- `bytes.Split(s, []byte("\n"))`: split at every newline; `n` newlines
give `n + 1` pieces, and an empty input gives one empty piece. -/
def splitNL : List Char → List (List Char)
  | [] => [[]]
  | c :: rest =>
    let r := splitNL rest
    if c = '\n' then [] :: r
    else
      match r with
      | [] => [[c]]
      | l :: ls => (c :: l) :: ls

/-- `FgaService.ExtractCheckRequests`: split the payload on newlines and
parse each non-empty line. -/
def ExtractCheckRequests (payload : String) : Option (List Check) :=
  extractLoop ((splitNL payload.data).map String.mk)

/-- Outcome of one `accessCheckHandler` invocation: the payloads passed to
`message.Respond` (attempted replies), whether `CheckRelationships` was
invoked, and the handler's return value (`none` is a nil error). -/
structure HandlerOut where
  replies : List String
  checkInvoked : Bool
  result : Option String
deriving DecidableEq, Repr

/-- `HandlerService.accessCheckHandler`: extract the check requests (on
failure reply `"failed to extract check requests"` and return the error);
with zero requests reply `"no check requests found"` and return nil; else
run `CheckRelationships` and reply with its result or with
`"failed to check relationship"`.  A reply is attempted only when a reply
inbox is present; a failed `Respond` (modelled by `respondFails`) makes the
handler return that send error. -/
def accessCheckHandler (data replyInbox : String) (respondFails : Bool)
    (cache : String → CacheLookup) (batchErr : Bool)
    (batchResult : List (String × Bool)) : HandlerOut :=
  match ExtractCheckRequests data with
  | none =>
    if replyInbox ≠ "" then
      if respondFails then
        { replies := ["failed to extract check requests"], checkInvoked := false,
          result := some "failed to send reply" }
      else
        { replies := ["failed to extract check requests"], checkInvoked := false,
          result := some "failed to extract check requests" }
    else
      { replies := [], checkInvoked := false,
        result := some "failed to extract check requests" }
  | some [] =>
    if replyInbox ≠ "" then
      if respondFails then
        { replies := ["no check requests found"], checkInvoked := false,
          result := some "failed to send reply" }
      else
        { replies := ["no check requests found"], checkInvoked := false,
          result := none }
    else
      { replies := [], checkInvoked := false, result := none }
  | some (c :: cs) =>
    match CheckRelationships cache batchErr batchResult (c :: cs) with
    | CheckRes.fail _ =>
      if replyInbox ≠ "" then
        if respondFails then
          { replies := ["failed to check relationship"], checkInvoked := true,
            result := some "failed to send reply" }
        else
          { replies := ["failed to check relationship"], checkInvoked := true,
            result := some "failed to check relationship" }
      else
        { replies := [], checkInvoked := true,
          result := some "failed to check relationship" }
    | CheckRes.ok resp =>
      if replyInbox ≠ "" then
        if respondFails then
          { replies := [resp], checkInvoked := true,
            result := some "failed to send reply" }
        else
          { replies := [resp], checkInvoked := true, result := none }
      else
        { replies := [], checkInvoked := true, result := none }

/-- Outcome of one `processDeleteAllAccessMessage` invocation. -/
structure DeleteAllOut where
  syncCalled : Option (String × List TupleKey)
  writes : List TupleKey
  deletes : List TupleKey
  trace : List SyncEvent
  store : List TupleKey
  replies : List String
  result : Option String
deriving DecidableEq, Repr

/-- `HandlerService.processDeleteAllAccessMessage`: reject an empty payload
and any payload whose first byte is a brace, bracket or double quote
(serialized data); otherwise call `SyncObjectTuples` on
`objectTypePrefix + uid` with a nil desired list and, on success, reply
`"OK"` when an inbox is present. -/
def processDeleteAllAccessMessage (objectTypeP objectUID replyInbox : String)
    (current : List TupleKey) (readFails writeFails respondFails : Bool) :
    DeleteAllOut :=
  if objectUID = "" then
    { syncCalled := none, writes := [], deletes := [], trace := [],
      store := current, replies := [], result := some "empty deletion payload" }
  else if objectUID.data.head? = some '\x7b' ∨ objectUID.data.head? = some '\x5b'
      ∨ objectUID.data.head? = some '\x22' then
    { syncCalled := none, writes := [], deletes := [], trace := [],
      store := current, replies := [],
      result := some "unsupported deletion payload" }
  else
    let object := objectTypeP ++ objectUID
    let out := SyncObjectTuples object [] current readFails writeFails
    if out.err then
      { syncCalled := some (object, []), writes := out.writes,
        deletes := out.deletes, trace := out.trace, store := out.store,
        replies := [], result := some "failed to sync tuples" }
    else if replyInbox ≠ "" then
      if respondFails then
        { syncCalled := some (object, []), writes := out.writes,
          deletes := out.deletes, trace := out.trace, store := out.store,
          replies := ["OK"], result := some "failed to send reply" }
      else
        { syncCalled := some (object, []), writes := out.writes,
          deletes := out.deletes, trace := out.trace, store := out.store,
          replies := ["OK"], result := none }
    else
      { syncCalled := some (object, []), writes := out.writes,
        deletes := out.deletes, trace := out.trace, store := out.store,
        replies := [], result := none }

/-- Decimal digits of a natural number, most significant first, matching the
recursion of `Nat.toDigitsCore` at base 10. -/
def digs (n : Nat) : List Char :=
  if h : n / 10 = 0 then [Nat.digitChar (n % 10)]
  else digs (n / 10) ++ [Nat.digitChar (n % 10)]
decreasing_by
  exact Nat.div_lt_self (Nat.pos_of_ne_zero (fun h0 => h (h0 ▸ Nat.zero_div 10)))
    (by omega)

/-- Decimal value of a digit-character list (inverse of `digs`). -/
def decValList (cs : List Char) : Nat :=
  cs.foldl (fun a c => 10 * a + (c.toNat - 48)) 0

/-- Newline-terminated concatenation of a list of lines. -/
def joinNL (ls : List (List Char)) : List Char :=
  ls.flatMap (fun l => l ++ ['\n'])

/-- A well-formed response line: non-empty and newline-free. -/
def lineOK (l : List Char) : Prop := l ≠ [] ∧ '\n' ∉ l

/-- C1 counterexample: with the `inv` marker present at creation time `5`,
a cache entry whose creation time is also `5` (so `created ≤ inv.created`
holds with equality) is NOT rejected as stale: the lookup counts it as a
fresh hit (`cache_hits`), does not add it to the live-check list, and its
cached value is used in the response.  The code's test is
`lastInvalidation.After(entry.Created())`, a strict inequality. -/
theorem C1_counterexample :
    (lookupPass
      (fun k => if k = "inv" then CacheLookup.found "x" 5
        else if k = cacheKeyOf "project:p#writer@user:alice" then CacheLookup.found "true" 5
        else CacheLookup.notFound) 5
      [{ user := "user:alice", relation := "writer", object := "project:p" }]).staleHits = 0 ∧
    (lookupPass
      (fun k => if k = "inv" then CacheLookup.found "x" 5
        else if k = cacheKeyOf "project:p#writer@user:alice" then CacheLookup.found "true" 5
        else CacheLookup.notFound) 5
      [{ user := "user:alice", relation := "writer", object := "project:p" }]).hits = 1 ∧
    (lookupPass
      (fun k => if k = "inv" then CacheLookup.found "x" 5
        else if k = cacheKeyOf "project:p#writer@user:alice" then CacheLookup.found "true" 5
        else CacheLookup.notFound) 5
      [{ user := "user:alice", relation := "writer", object := "project:p" }]).toCheck = [] ∧
    CheckRelationships
      (fun k => if k = "inv" then CacheLookup.found "x" 5
        else if k = cacheKeyOf "project:p#writer@user:alice" then CacheLookup.found "true" 5
        else CacheLookup.notFound) false []
      [{ user := "user:alice", relation := "writer", object := "project:p" }] =
      CheckRes.ok "project:p#writer@user:alice\ttrue" := by
  decide

/-- C2 (code bug): when the gateway `Write` fails during `SyncObjectTuples`,
the call does return the error with the partial writes and deletes lists,
the stored set is unchanged and no `Put("inv")` is issued — but the
asynchronous seed `PutString` goroutine for the new user-relation write has
already been launched (inside the writes loop, before the `Write`), so a
seed cache entry can still be written by that call, contradicting the claim
and the source's own comment that seeding happens after the invalidation
write. -/
theorem C2_code_bug :
    (SyncObjectTuples "project:p"
      [{ user := "user:alice", relation := "writer", object := "" }] [] false true).err = true ∧
    (SyncObjectTuples "project:p"
      [{ user := "user:alice", relation := "writer", object := "" }] [] false true).writes =
      [{ user := "user:alice", relation := "writer", object := "project:p" }] ∧
    (SyncObjectTuples "project:p"
      [{ user := "user:alice", relation := "writer", object := "" }] [] false true).deletes = [] ∧
    (SyncObjectTuples "project:p"
      [{ user := "user:alice", relation := "writer", object := "" }] [] false true).store = [] ∧
    SyncEvent.putInv ∉
      (SyncObjectTuples "project:p"
        [{ user := "user:alice", relation := "writer", object := "" }] [] false true).trace ∧
    SyncEvent.seedSpawn (cacheKeyOf "project:p#writer@user:alice") ∈
      (SyncObjectTuples "project:p"
        [{ user := "user:alice", relation := "writer", object := "" }] [] false true).trace := by
  decide

/-- C3 (code bug): within one successful `SyncObjectTuples` call the program
order is `Read`, then the LAUNCH of the asynchronous seed `PutString`
goroutine, then `Write`, then `Put("inv")`.  The `go` statement is the only
synchronization edge between the seed write and the rest of the call, so
nothing orders the seed `PutString` after `Put("inv")` (nor even after
`Write`): the claimed happens-before `Put("inv") → seed` does not hold,
while `Read → Write → Put("inv")` does. -/
theorem C3_code_bug :
    (SyncObjectTuples "project:p"
      [{ user := "user:alice", relation := "writer", object := "" }] [] false false).trace =
      [SyncEvent.readEv,
       SyncEvent.seedSpawn (cacheKeyOf "project:p#writer@user:alice"),
       SyncEvent.writeEv, SyncEvent.putInv] := by
  decide

/-- C5 counterexample: two checks where the first is a cache miss and the
second a fresh cache hit.  The response places the second check's line
first (cache-hit lines are appended during the lookup pass, live-check
lines only afterwards), so the lines are not in input order. -/
theorem C5_counterexample :
    CheckRelationships
      (fun k => if k = "inv" then CacheLookup.notFound
        else if k = cacheKeyOf "project:two#writer@user:alice" then CacheLookup.found "true" 3
        else CacheLookup.notFound) false [("1", true)]
      [{ user := "user:alice", relation := "writer", object := "project:one" },
       { user := "user:alice", relation := "writer", object := "project:two" }] =
      CheckRes.ok "project:two#writer@user:alice\ttrue\nproject:one#writer@user:alice\ttrue" ∧
    ("project:two#writer@user:alice\ttrue\nproject:one#writer@user:alice\ttrue" : String) ≠
      "project:one#writer@user:alice\ttrue\nproject:two#writer@user:alice\ttrue" := by
  decide

/-- C7 counterexample: a line with two `@` separators is accepted by
`parseCheckRequest` (it cuts at the FIRST `@`), so "contains exactly one
`@`" is not necessary for acceptance. -/
theorem C7_counterexample :
    parseCheckRequest "a#b@c@d" =
      some { user := "c@d", relation := "b", object := "a" } ∧
    ("a#b@c@d" : String).data.count '@' = 2 := by
  decide

/-- C8 counterexample: a valid (non-empty, non-serialized) payload for an
object with NO stored tuples: `SyncObjectTuples` is called with a nil
desired list and succeeds, but it early-exits — no `Write` and no
`Put("inv")` — so the `inv` marker is NOT updated, contradicting the
claim's "the inv marker is updated". -/
theorem C8_counterexample :
    (processDeleteAllAccessMessage "project:" "abc123" "" [] false false false).result = none ∧
    (processDeleteAllAccessMessage "project:" "abc123" "" [] false false false).syncCalled =
      some ("project:abc123", []) ∧
    (processDeleteAllAccessMessage "project:" "abc123" "" [] false false false).trace =
      [SyncEvent.readEv] ∧
    SyncEvent.putInv ∉
      (processDeleteAllAccessMessage "project:" "abc123" "" [] false false false).trace := by
  decide

/-- C10 counterexample: a payload of only blank lines parses to zero check
requests; with a reply inbox present the handler replies
`"no check requests found"` and never invokes `CheckRelationships`, but if
that reply send fails the handler returns the send error, NOT nil. -/
theorem C10_counterexample :
    (accessCheckHandler "\n" "inbox" true (fun _ => CacheLookup.notFound) false []).replies =
      ["no check requests found"] ∧
    (accessCheckHandler "\n" "inbox" true (fun _ => CacheLookup.notFound) false []).checkInvoked =
      false ∧
    (accessCheckHandler "\n" "inbox" true (fun _ => CacheLookup.notFound) false []).result =
      some "failed to send reply" := by
  decide

/-- Helper: the writes loop yields one write per remaining map entry, so an
empty writes list means the remaining map was empty. -/
theorem writesLoop_fst_nil (m : List (String × TupleKey))
    (h : (writesLoop m).1 = []) : m = [] := by
  cases m with
  | nil => rfl
  | cons p rest =>
    exfalso
    rcases hw : writesLoop rest with ⟨ws, evs⟩
    simp only [writesLoop, hw] at h
    split at h <;> simp at h

/-- C1 (amended): whenever a batch-check lookup finds a cache entry whose
creation timestamp satisfies `created < inv.created` (STRICTLY before the
invalidation time; the code's test is `lastInvalidation.After(entry.Created())`,
so `created = inv.created` is a fresh hit), the entry is rejected as stale:
it is counted in `cache_stale_hits`, added to the live-check list, and its
cached value is not appended to the response. -/
theorem C1_stale_rejected (cache : String → CacheLookup) (lastInvalidation : Nat)
    (c : Check) (rest : List Check) (v : String) (created : Nat)
    (hfound : cache (cacheKeyOf (relationKeyOf c)) = CacheLookup.found v created)
    (hstale : created < lastInvalidation) :
    lookupPass cache lastInvalidation (c :: rest) =
      { lookupPass cache lastInvalidation rest with
          toCheck := c :: (lookupPass cache lastInvalidation rest).toCheck,
          staleHits := (lookupPass cache lastInvalidation rest).staleHits + 1 } := by
  simp [lookupPass, hfound, hstale]

/-- Witness for C1: a concrete stale entry (created 3, invalidation 5) is
counted as a stale hit, queued for the live check, and contributes nothing
to the message. -/
theorem C1_stale_rejected_witness :
    lookupPass
      (fun k => if k = cacheKeyOf "project:p#writer@user:alice"
        then CacheLookup.found "true" 3 else CacheLookup.notFound) 5
      [{ user := "user:alice", relation := "writer", object := "project:p" }] =
      { message := "",
        toCheck := [{ user := "user:alice", relation := "writer", object := "project:p" }],
        hits := 0, staleHits := 1, misses := 0 } := by
  have h := C1_stale_rejected
    (fun k => if k = cacheKeyOf "project:p#writer@user:alice"
      then CacheLookup.found "true" 3 else CacheLookup.notFound) 5
    { user := "user:alice", relation := "writer", object := "project:p" } [] "true" 3
    (by decide) (by decide)
  exact h.trans (by decide)

/-- C10 (amended): for every access-check message whose payload parses to
zero check requests, the handler never invokes `CheckRelationships`, replies
`"no check requests found"` exactly when a reply inbox is present, and
returns nil UNLESS that reply send itself fails, in which case it returns
the send error. -/
theorem C10_no_checks (data replyInbox : String) (respondFails : Bool)
    (cache : String → CacheLookup) (batchErr : Bool)
    (batchResult : List (String × Bool))
    (h : ExtractCheckRequests data = some []) :
    (accessCheckHandler data replyInbox respondFails cache batchErr batchResult).checkInvoked
        = false ∧
    (accessCheckHandler data replyInbox respondFails cache batchErr batchResult).replies
        = (if replyInbox ≠ "" then ["no check requests found"] else []) ∧
    (accessCheckHandler data replyInbox respondFails cache batchErr batchResult).result
        = (if replyInbox ≠ "" ∧ respondFails = true then some "failed to send reply"
           else none) := by
  unfold accessCheckHandler
  rw [h]
  by_cases hr : replyInbox = ""
  · simp [hr]
  · cases respondFails <;> simp [hr]

/-- Witness for C10: empty payload, inbox present, reply send succeeds — the
handler replies "no check requests found", returns nil, and never calls
`CheckRelationships`. -/
theorem C10_no_checks_witness :
    (accessCheckHandler "" "inbox" false (fun _ => CacheLookup.notFound) false []).checkInvoked
        = false ∧
    (accessCheckHandler "" "inbox" false (fun _ => CacheLookup.notFound) false []).replies
        = ["no check requests found"] ∧
    (accessCheckHandler "" "inbox" false (fun _ => CacheLookup.notFound) false []).result
        = none := by
  obtain ⟨h1, h2, h3⟩ :=
    C10_no_checks "" "inbox" false (fun _ => CacheLookup.notFound) false [] (by decide)
  exact ⟨h1, by simpa using h2, by simpa using h3⟩

/-- C4 (confirmed): when the computed writes and deletes are both empty
(the normalized desired list matches the stored set), `SyncObjectTuples`
returns empty writes, empty deletes and nil error, and its trace shows only
the gateway `Read`: no `Write`, no `Put("inv")`, no seed launch, and the
stored set is untouched. -/
theorem C4_noop (object : String) (relations current : List TupleKey)
    (writeFails : Bool)
    (hW : (SyncObjectTuples object relations current false writeFails).writes = [])
    (hD : (SyncObjectTuples object relations current false writeFails).deletes = []) :
    SyncObjectTuples object relations current false writeFails =
      { writes := [], deletes := [], err := false,
        trace := [SyncEvent.readEv], store := current } := by
  rcases hd : diffLoop object current (getRelationsMap object relations) with ⟨remaining, dels⟩
  rcases hw : writesLoop remaining with ⟨ws, evs⟩
  unfold SyncObjectTuples at hW hD ⊢
  simp only [hd, hw, Bool.false_eq_true, if_false] at hW hD ⊢
  by_cases hc : ws = [] ∧ dels = []
  · obtain ⟨hws, hds⟩ := hc
    have hrem : remaining = [] := writesLoop_fst_nil remaining (by rw [hw]; exact hws)
    subst hrem
    have h0 : (([] : List TupleKey), ([] : List SyncEvent)) = (ws, evs) := by
      simpa [writesLoop] using hw
    injection h0 with h1 h2
    subst hws hds
    rw [h2.symm]
    simp
  · exfalso
    rw [if_neg hc] at hW hD
    have hws : ws = [] := by cases writeFails <;> simpa using hW
    have hds : dels = [] := by cases writeFails <;> simpa using hD
    exact hc ⟨hws, hds⟩

/-- Witness for C4: desired list equal to the stored set — the sync is a
pure no-op. -/
theorem C4_noop_witness :
    SyncObjectTuples "project:p"
      [{ user := "user:a", relation := "writer", object := "project:p" }]
      [{ user := "user:a", relation := "writer", object := "project:p" }] false false =
      { writes := [], deletes := [], err := false, trace := [SyncEvent.readEv],
        store := [{ user := "user:a", relation := "writer", object := "project:p" }] } :=
  C4_noop "project:p"
    [{ user := "user:a", relation := "writer", object := "project:p" }]
    [{ user := "user:a", relation := "writer", object := "project:p" }] false
    (by decide) (by decide)

/-- Helper: membership after a Go map assignment comes from the old map or is
the new binding. -/
theorem insertAssoc_mem (m : List (String × TupleKey)) (key : String)
    (v : TupleKey) (kv : String × TupleKey) (h : kv ∈ insertAssoc m key v) :
    kv ∈ m ∨ kv = (key, v) := by
  induction m with
  | nil => simpa [insertAssoc] using h
  | cons p rest ih =>
    rcases p with ⟨k, w⟩
    simp only [insertAssoc] at h
    by_cases hk : k = key
    · rw [if_pos hk] at h
      rcases List.mem_cons.mp h with h1 | h1
      · right; rw [h1, hk]
      · left; exact List.mem_cons_of_mem _ h1
    · rw [if_neg hk] at h
      rcases List.mem_cons.mp h with h1 | h1
      · left; exact h1 ▸ List.mem_cons_self _ _
      · rcases ih h1 with h2 | h2
        · left; exact List.mem_cons_of_mem _ h2
        · right; exact h2

/-- Helper: every value in the normalized desired map carries the target
object. -/
theorem getRelationsMapGo_object (object : String) :
    ∀ (relations : List TupleKey) (m : List (String × TupleKey)),
      (∀ kv ∈ m, (kv : String × TupleKey).2.object = object) →
      ∀ kv ∈ getRelationsMapGo object m relations, kv.2.object = object := by
  intro relations
  induction relations with
  | nil =>
    intro m hm kv hkv
    exact hm kv (by simpa [getRelationsMapGo] using hkv)
  | cons r rest ih =>
    intro m hm kv hkv
    simp only [getRelationsMapGo] at hkv
    by_cases h1 : r.object = ""
    · rw [if_pos h1] at hkv
      refine ih _ ?_ kv hkv
      intro kv' hkv'
      rcases insertAssoc_mem _ _ _ _ hkv' with h | h
      · exact hm kv' h
      · rw [h]
    · rw [if_neg h1] at hkv
      by_cases h2 : r.object ≠ object
      · rw [if_pos h2] at hkv
        exact ih m hm kv hkv
      · rw [if_neg h2] at hkv
        push_neg at h2
        refine ih _ ?_ kv hkv
        intro kv' hkv'
        rcases insertAssoc_mem _ _ _ _ hkv' with h | h
        · exact hm kv' h
        · rw [h]; exact h2

/-- Helper: every value of the normalized desired map carries the target
object. -/
theorem getRelationsMap_object (object : String) (relations : List TupleKey)
    (kv : String × TupleKey) (h : kv ∈ getRelationsMap object relations) :
    kv.2.object = object :=
  getRelationsMapGo_object object relations [] (by simp) kv h

/-- Helper: Go map delete only removes entries. -/
theorem eraseAssoc_sub (m : List (String × TupleKey)) (key : String)
    (kv : String × TupleKey) (h : kv ∈ eraseAssoc m key) : kv ∈ m := by
  induction m with
  | nil => simp [eraseAssoc] at h
  | cons p rest ih =>
    rcases p with ⟨k, w⟩
    simp only [eraseAssoc] at h
    by_cases hk : k = key
    · rw [if_pos hk] at h
      exact List.mem_cons_of_mem _ h
    · rw [if_neg hk] at h
      rcases List.mem_cons.mp h with h1 | h1
      · exact h1 ▸ List.mem_cons_self _ _
      · exact List.mem_cons_of_mem _ (ih h1)

/-- Helper: the map remaining after the diff loop is a subset of the input
map. -/
theorem diffLoop_remaining_sub (object : String) :
    ∀ (current : List TupleKey) (m : List (String × TupleKey))
      (kv : String × TupleKey), kv ∈ (diffLoop object current m).1 → kv ∈ m := by
  intro current
  induction current with
  | nil =>
    intro m kv h
    simpa [diffLoop] using h
  | cons t rest ih =>
    intro m kv h
    simp only [diffLoop] at h
    rcases hl : m.lookup (t.relation ++ "@" ++ t.user) with _ | w
    · rw [hl] at h
      rcases hd : diffLoop object rest m with ⟨m2, ds⟩
      rw [hd] at h
      simp only at h
      have : kv ∈ (diffLoop object rest m).1 := by rw [hd]; exact h
      exact ih m kv this
    · rw [hl] at h
      exact eraseAssoc_sub _ _ _ (ih _ kv h)

/-- Helper: every delete produced by the diff loop carries the target
object. -/
theorem diffLoop_deletes_object (object : String) :
    ∀ (current : List TupleKey) (m : List (String × TupleKey)) (d : TupleKey),
      d ∈ (diffLoop object current m).2 → d.object = object := by
  intro current
  induction current with
  | nil =>
    intro m d h
    simp [diffLoop] at h
  | cons t rest ih =>
    intro m d h
    simp only [diffLoop] at h
    rcases hl : m.lookup (t.relation ++ "@" ++ t.user) with _ | w
    · rw [hl] at h
      rcases hd : diffLoop object rest m with ⟨m2, ds⟩
      rw [hd] at h
      simp only [List.mem_cons] at h
      rcases h with h | h
      · rw [h]
      · have : d ∈ (diffLoop object rest m).2 := by rw [hd]; exact h
        exact ih m d this
    · rw [hl] at h
      exact ih _ d h

/-- Helper: every write produced by the writes loop is a value of the
remaining desired map. -/
theorem writesLoop_mem (m : List (String × TupleKey)) (w : TupleKey)
    (h : w ∈ (writesLoop m).1) : ∃ k, (k, w) ∈ m := by
  induction m with
  | nil => simp [writesLoop] at h
  | cons p rest ih =>
    rcases p with ⟨k0, r⟩
    rcases hw : writesLoop rest with ⟨ws, evs⟩
    simp only [writesLoop, hw] at h
    have hmem : w ∈ r :: ws := by
      rcases h0 : strStartsWith r.user "user:" with _ | _ <;> rw [h0] at h <;> simpa using h
    rcases List.mem_cons.mp hmem with h1 | h1
    · exact ⟨k0, h1 ▸ List.mem_cons_self _ _⟩
    · obtain ⟨k, hk⟩ := ih (by rw [hw]; exact h1)
      exact ⟨k, List.mem_cons_of_mem _ hk⟩

/-- C9 (confirmed): every tuple in the writes list and every tuple in the
deletes list returned by `SyncObjectTuples` carries the target object:
deletes are constructed with the target object regardless of the stored
tuple's own object field, and desired tuples are normalized (empty object
replaced by the target, different objects dropped) before diffing. -/
theorem C9_object_scope (object : String) (relations current : List TupleKey)
    (readFails writeFails : Bool) :
    (∀ t ∈ (SyncObjectTuples object relations current readFails writeFails).writes,
      t.object = object) ∧
    (∀ t ∈ (SyncObjectTuples object relations current readFails writeFails).deletes,
      t.object = object) := by
  cases readFails with
  | true => simp [SyncObjectTuples]
  | false =>
    rcases hd : diffLoop object current (getRelationsMap object relations)
      with ⟨remaining, dels⟩
    rcases hw : writesLoop remaining with ⟨ws, evs⟩
    have hws : ∀ t ∈ ws, t.object = object := by
      intro t ht
      obtain ⟨k, hk⟩ := writesLoop_mem remaining t (by rw [hw]; exact ht)
      have hmem := diffLoop_remaining_sub object current
        (getRelationsMap object relations) (k, t) (by rw [hd]; exact hk)
      exact getRelationsMap_object object relations (k, t) hmem
    have hds : ∀ t ∈ dels, t.object = object := by
      intro t ht
      exact diffLoop_deletes_object object current
        (getRelationsMap object relations) t (by rw [hd]; exact ht)
    unfold SyncObjectTuples
    simp only [hd, hw, Bool.false_eq_true, if_false]
    by_cases hc : ws = [] ∧ dels = []
    · rw [if_pos hc]
      exact ⟨hws, hds⟩
    · rw [if_neg hc]
      cases writeFails <;> simp <;> exact ⟨hws, hds⟩

/-- Witness for C9: a concrete sync whose write (normalized from an empty
object field) carries the target object. -/
theorem C9_object_scope_witness :
    (⟨"user:a", "writer", "project:p"⟩ : TupleKey) ∈
      (SyncObjectTuples "project:p"
        [{ user := "user:a", relation := "writer", object := "" }]
        [{ user := "user:b", relation := "auditor", object := "project:p" }]
        false false).writes ∧
    TupleKey.object ⟨"user:a", "writer", "project:p"⟩ = "project:p" := by
  refine ⟨by decide, ?_⟩
  exact (C9_object_scope "project:p"
    [{ user := "user:a", relation := "writer", object := "" }]
    [{ user := "user:b", relation := "auditor", object := "project:p" }]
    false false).1 ⟨"user:a", "writer", "project:p"⟩ (by decide)

/-- Helper: diffing against an empty desired map deletes every current
tuple, rebound to the target object. -/
theorem diffLoop_nil_map (object : String) :
    ∀ current : List TupleKey,
      diffLoop object current [] =
        ([], current.map
          (fun t => { user := t.user, relation := t.relation, object := object })) := by
  intro current
  induction current with
  | nil => rfl
  | cons t rest ih => simp [diffLoop, ih, List.lookup]

/-- Helper: deleting every current tuple (all bound to the target object)
empties the store. -/
theorem applyWrite_delete_all (object : String) (current : List TupleKey)
    (hscope : ∀ t ∈ current, t.object = object) :
    applyWrite current []
      (current.map
        (fun t => { user := t.user, relation := t.relation, object := object })) = [] := by
  unfold applyWrite
  rw [List.append_nil]
  rw [List.filter_eq_nil_iff]
  intro t ht
  have h1 : t ∈ current.map
      (fun t => ({ user := t.user, relation := t.relation, object := object } : TupleKey)) := by
    rcases t with ⟨u, r, o⟩
    have ho : o = object := hscope ⟨u, r, o⟩ ht
    subst ho
    exact List.mem_map_of_mem _ ht
  simp [h1]

/-- Helper: a `SyncObjectTuples` call with a nil desired list deletes every
stored tuple (when there are any) and then writes the invalidation marker;
with no stored tuples it is a pure no-op that never touches gateway `Write`
or the cache. -/
theorem sync_nil_desired (object : String) (current : List TupleKey)
    (hscope : ∀ t ∈ current, t.object = object) :
    SyncObjectTuples object [] current false false =
      (if current = [] then
        { writes := [], deletes := [], err := false,
          trace := [SyncEvent.readEv], store := current }
      else
        { writes := [],
          deletes := current.map
            (fun t => { user := t.user, relation := t.relation, object := object }),
          err := false,
          trace := [SyncEvent.readEv, SyncEvent.writeEv, SyncEvent.putInv],
          store := [] }) := by
  by_cases hcur : current = []
  · subst hcur
    simp [SyncObjectTuples, getRelationsMap, getRelationsMapGo, diffLoop, writesLoop]
  · simp only [SyncObjectTuples, getRelationsMap, getRelationsMapGo,
      diffLoop_nil_map, writesLoop, Bool.false_eq_true, if_false, if_neg hcur]
    rw [if_neg (fun h => hcur (List.map_eq_nil_iff.mp h.2))]
    simp [applyWrite_delete_all object current hscope]

/-- C8 (amended): the delete-all handler rejects an empty payload and every
payload whose first byte is a brace, bracket or double quote, with an error
and without calling the sync engine; for every other payload it calls
`SyncObjectTuples` with a nil desired list, which (on a successful `Write`)
deletes all stored tuples for the object, and the `inv` marker is updated
exactly when the object HAD stored tuples — with an empty stored set the
call is a no-op and no `Put("inv")` happens. -/
theorem C8_delete_all (p uid inbox : String) (current : List TupleKey)
    (rpf : Bool) (hscope : ∀ t ∈ current, t.object = p ++ uid) :
    (uid = "" →
      (processDeleteAllAccessMessage p uid inbox current false false rpf).result =
        some "empty deletion payload" ∧
      (processDeleteAllAccessMessage p uid inbox current false false rpf).syncCalled =
        none) ∧
    (uid ≠ "" →
      (uid.data.head? = some '\x7b' ∨ uid.data.head? = some '\x5b'
        ∨ uid.data.head? = some '\x22') →
      (processDeleteAllAccessMessage p uid inbox current false false rpf).result =
        some "unsupported deletion payload" ∧
      (processDeleteAllAccessMessage p uid inbox current false false rpf).syncCalled =
        none) ∧
    (uid ≠ "" →
      ¬(uid.data.head? = some '\x7b' ∨ uid.data.head? = some '\x5b'
        ∨ uid.data.head? = some '\x22') →
      (processDeleteAllAccessMessage p uid inbox current false false rpf).syncCalled =
        some (p ++ uid, []) ∧
      (processDeleteAllAccessMessage p uid inbox current false false rpf).store = [] ∧
      (current ≠ [] →
        SyncEvent.putInv ∈
          (processDeleteAllAccessMessage p uid inbox current false false rpf).trace) ∧
      (current = [] →
        (processDeleteAllAccessMessage p uid inbox current false false rpf).trace =
          [SyncEvent.readEv])) := by
  refine ⟨?_, ?_, ?_⟩
  · intro h
    unfold processDeleteAllAccessMessage
    rw [if_pos h]
    exact ⟨rfl, rfl⟩
  · intro hne hc
    unfold processDeleteAllAccessMessage
    rw [if_neg hne, if_pos hc]
    exact ⟨rfl, rfl⟩
  · intro hne hc
    unfold processDeleteAllAccessMessage
    rw [if_neg hne, if_neg hc]
    have hs := sync_nil_desired (p ++ uid) current hscope
    by_cases hcur : current = []
    · subst hcur
      rw [if_pos rfl] at hs
      simp only [hs]
      by_cases hib : inbox ≠ ""
      · cases rpf <;> simp [hib]
      · simp [hib]
    · rw [if_neg hcur] at hs
      simp only [hs]
      by_cases hib : inbox ≠ ""
      · cases rpf <;> simp [hib, hcur]
      · simp [hib, hcur]

/-- Witness for C8: an object with one stored tuple — the handler deletes it
and the trace contains the invalidation write. -/
theorem C8_delete_all_witness :
    (processDeleteAllAccessMessage "project:" "x" ""
      [{ user := "user:a", relation := "writer", object := "project:x" }]
      false false false).syncCalled = some ("project:x", []) ∧
    (processDeleteAllAccessMessage "project:" "x" ""
      [{ user := "user:a", relation := "writer", object := "project:x" }]
      false false false).store = [] ∧
    SyncEvent.putInv ∈
      (processDeleteAllAccessMessage "project:" "x" ""
        [{ user := "user:a", relation := "writer", object := "project:x" }]
        false false false).trace := by
  obtain ⟨h1, h2, h3, h4⟩ :=
    (C8_delete_all "project:" "x" ""
      [{ user := "user:a", relation := "writer", object := "project:x" }]
      false (by decide)).2.2 (by decide) (by decide)
  exact ⟨h1, h2, h3 (by decide)⟩

/-- Helper: `bytes.Cut` succeeds exactly when the separator occurs. -/
theorem cutChar_isSome (s : List Char) (sep : Char) :
    (cutChar s sep).isSome ↔ sep ∈ s := by
  induction s with
  | nil => simp [cutChar]
  | cons c rest ih =>
    simp only [cutChar]
    by_cases hc : c = sep
    · simp [hc]
    · rw [if_neg hc]
      rcases h : cutChar rest sep with _ | ⟨a, b⟩
      · simp only [h, Option.isSome_none] at ih ⊢
        simp [List.mem_cons, Ne.symm hc, ← ih]
      · simp only [h, Option.isSome_some] at ih ⊢
        simp [List.mem_cons, Ne.symm hc, ← ih]

/-- Helper: the left part returned by `bytes.Cut` is everything before the
FIRST occurrence of the separator. -/
theorem cutChar_fst (s : List Char) (sep : Char) :
    ∀ a b, cutChar s sep = some (a, b) →
      a = s.takeWhile (fun c => c != sep) := by
  induction s with
  | nil => intro a b h; simp [cutChar] at h
  | cons c rest ih =>
    intro a b h
    simp only [cutChar] at h
    by_cases hc : c = sep
    · rw [if_pos hc] at h
      simp only [Option.some.injEq, Prod.mk.injEq] at h
      obtain ⟨ha, _⟩ := h
      subst hc
      simp [List.takeWhile, ← ha]
    · rw [if_neg hc] at h
      rcases h2 : cutChar rest sep with _ | ⟨a', b'⟩
      · rw [h2] at h; simp at h
      · rw [h2] at h
        simp only [Option.some.injEq, Prod.mk.injEq] at h
        obtain ⟨ha, _⟩ := h
        subst ha
        have hbne : (c != sep) = true := by simp [hc]
        simp [List.takeWhile, hbne, ih a' b' h2]

/-- C7 (amended): `parseCheckRequest` accepts a line if and only if the line
contains at least one `@` and, within the portion left of the FIRST `@`, at
least one `#` (it cuts at the first occurrence of each separator, so a line
with several `@`s such as "a#b@c@d" is accepted, with everything after the
first `@` becoming the user).  Empty components are accepted when both
separators are present (`parseCheckLine("#@") = ("", "", "")`), while "abc"
(no `@`) and "abc@x" (no `#`) are parse errors. -/
theorem C7_accepts_iff :
    (∀ line : String, (parseCheckRequest line).isSome ↔
      ('@' ∈ line.data ∧ '#' ∈ line.data.takeWhile (fun c => c != '@'))) ∧
    parseCheckRequest "#@" = some { user := "", relation := "", object := "" } ∧
    parseCheckRequest "abc" = none ∧
    parseCheckRequest "abc@x" = none := by
  refine ⟨?_, by decide, by decide, by decide⟩
  intro line
  unfold parseCheckRequest
  rcases h : cutChar line.data '@' with _ | ⟨first, user⟩
  · simp only [h, Option.isSome_none, Bool.false_eq_true, false_iff]
    rintro ⟨h1, _⟩
    have h2 := (cutChar_isSome line.data '@').mpr h1
    rw [h] at h2; simp at h2
  · simp only [h]
    have hfst : first = line.data.takeWhile (fun c => c != '@') :=
      cutChar_fst line.data '@' first user h
    have hmem : '@' ∈ line.data :=
      (cutChar_isSome line.data '@').mp (by rw [h]; rfl)
    rcases h2 : cutChar first '#' with _ | ⟨o, r⟩
    · simp only [h2, Option.isSome_none, Bool.false_eq_true, false_iff]
      rintro ⟨_, h3⟩
      rw [← hfst] at h3
      have h4 := (cutChar_isSome first '#').mpr h3
      rw [h2] at h4; simp at h4
    · simp only [h2, Option.isSome_some, true_iff]
      exact ⟨hmem, hfst ▸ (cutChar_isSome first '#').mp (by rw [h2]; rfl)⟩

/-- Witness for C7: a well-formed line is accepted. -/
theorem C7_accepts_iff_witness : (parseCheckRequest "x#y@z").isSome = true := by
  have h := (C7_accepts_iff.1 "x#y@z").mpr (by decide)
  simpa using h

/-- Helper: `Nat.toDigitsCore` at base 10 with sufficient fuel computes
`digs` and appends the accumulator. -/
theorem toDigitsCore_eq_digs :
    ∀ (fuel n : Nat) (acc : List Char), n < fuel →
      Nat.toDigitsCore 10 fuel n acc = digs n ++ acc := by
  intro fuel
  induction fuel with
  | zero => intro n acc h; exact absurd h (Nat.not_lt_zero n)
  | succ f ih =>
    intro n acc h
    simp only [Nat.toDigitsCore]
    by_cases h0 : n / 10 = 0
    · rw [if_pos h0, digs, dif_pos h0]
      rfl
    · rw [if_neg h0]
      have hpos : 0 < n := by
        rcases Nat.eq_zero_or_pos n with h1 | h1
        · exact absurd (by rw [h1]) h0
        · exact h1
      have hlt : n / 10 < f := by
        have h2 : n / 10 < n := Nat.div_lt_self hpos (by omega)
        omega
      rw [digs, dif_neg h0, ih (n / 10) (Nat.digitChar (n % 10) :: acc) hlt]
      simp

/-- Helper: `Nat.repr` prints exactly the decimal digits `digs`. -/
theorem repr_eq_digs (n : Nat) : Nat.repr n = (digs n).asString := by
  unfold Nat.repr Nat.toDigits
  rw [toDigitsCore_eq_digs (n + 1) n [] (Nat.lt_succ_self n)]
  simp

/-- Helper: decoding one decimal digit character. -/
theorem digitChar_toNat (d : Nat) (h : d < 10) :
    (Nat.digitChar d).toNat - 48 = d := by
  interval_cases d <;> decide

/-- Helper: `decValList` is a left inverse of `digs`. -/
theorem decValList_digs (n : Nat) : decValList (digs n) = n := by
  induction n using Nat.strong_induction_on with
  | _ n ih =>
    by_cases h0 : n / 10 = 0
    · have h10 : n < 10 := (Nat.div_eq_zero_iff (by omega)).mp h0
      rw [digs, dif_pos h0]
      unfold decValList
      simp only [List.foldl]
      rw [digitChar_toNat (n % 10) (Nat.mod_lt n (by omega))]
      omega
    · have hpos : 0 < n := by
        rcases Nat.eq_zero_or_pos n with h1 | h1
        · exact absurd (by rw [h1]) h0
        · exact h1
      rw [digs, dif_neg h0]
      unfold decValList
      rw [List.foldl_append]
      simp only [List.foldl]
      have ihd := ih (n / 10) (Nat.div_lt_self hpos (by omega))
      unfold decValList at ihd
      rw [ihd, digitChar_toNat (n % 10) (Nat.mod_lt n (by omega))]
      omega

/-- Helper: `Nat.repr` is injective (decimal printing has an inverse). -/
theorem repr_injective (a b : Nat) (h : Nat.repr a = Nat.repr b) : a = b := by
  rw [repr_eq_digs, repr_eq_digs] at h
  have hd : digs a = digs b := by
    simpa [List.asString] using congrArg String.data h
  calc a = decValList (digs a) := (decValList_digs a).symm
    _ = decValList (digs b) := by rw [hd]
    _ = b := decValList_digs b

/-- Helper: looking up a decimal correlation id in the enumerated map finds
the check at the corresponding position. -/
theorem corrMap_lookup_enumFrom :
    ∀ (l : List Check) (k i : Nat) (h : i < l.length),
      ((List.enumFrom k l).map (fun p => (Nat.repr (p.1 + 1), p.2))).lookup
        (Nat.repr (k + i + 1)) = some (l.get ⟨i, h⟩) := by
  intro l
  induction l with
  | nil => intro k i h; simp at h
  | cons c rest ih =>
    intro k i h
    cases i with
    | zero =>
      simp only [List.enumFrom, List.map, List.lookup]
      have hb : (Nat.repr (k + 0 + 1) == Nat.repr (k + 1)) = true := by
        rw [show k + 0 + 1 = k + 1 from by omega]
        exact beq_self_eq_true _
      rw [hb]
      rfl
    | succ i' =>
      have hb : (Nat.repr (k + (i' + 1) + 1) == Nat.repr (k + 1)) = false := by
        apply beq_false_of_ne
        intro hcontra
        have := repr_injective _ _ hcontra
        omega
      simp only [List.enumFrom, List.map, List.lookup]
      rw [hb]
      have hrec := ih (k + 1) i' (by simpa using h)
      rw [show k + (i' + 1) + 1 = (k + 1) + i' + 1 from by omega]
      exact hrec

/-- C6 (confirmed): the correlation ids attached to the outbound
`BatchCheck` request are exactly the decimal strings `"1"` through `"N"`
(N = number of tuples to check), assigned in the order the checks appear in
`toCheck`; the ids are pairwise distinct, and the id-to-check mapping sends
the id `"i"` to the check at position `i-1` of `toCheck`. -/
theorem C6_correlation_ids (toCheck : List Check) :
    ((mkCorrMap toCheck).map Prod.fst =
      (List.range toCheck.length).map (fun i => Nat.repr (i + 1))) ∧
    ((mkCorrMap toCheck).map Prod.fst).Nodup ∧
    (∀ i : Fin toCheck.length,
      (mkCorrMap toCheck).lookup (Nat.repr (i.1 + 1)) = some (toCheck.get i)) := by
  have hinj : Function.Injective (fun i : Nat => Nat.repr (i + 1)) := by
    intro x y hxy
    have := repr_injective _ _ hxy
    omega
  have h1 : (mkCorrMap toCheck).map Prod.fst =
      (List.range toCheck.length).map (fun i => Nat.repr (i + 1)) := by
    unfold mkCorrMap List.enum
    rw [List.map_map, List.range_eq_range']
    rw [show ((List.range' 0 toCheck.length).map fun i => Nat.repr (i + 1)) =
      ((List.enumFrom 0 toCheck).map Prod.fst).map (fun i => Nat.repr (i + 1)) from by
        rw [List.enumFrom_map_fst]]
    rw [List.map_map]
    rfl
  refine ⟨h1, ?_, ?_⟩
  · rw [h1]
    exact (List.nodup_range _).map hinj
  · intro i
    have := corrMap_lookup_enumFrom toCheck 0 i.1 i.2
    rw [show (0 : Nat) + i.1 + 1 = i.1 + 1 from by omega] at this
    exact this

/-- Witness for C6: in a two-check fallback, the id `"2"` maps to the second
check. -/
theorem C6_correlation_ids_witness :
    (mkCorrMap [{ user := "user:a", relation := "writer", object := "project:p" },
                { user := "user:b", relation := "viewer", object := "project:q" }]).lookup "2" =
      some { user := "user:b", relation := "viewer", object := "project:q" } := by
  have h := (C6_correlation_ids
    [{ user := "user:a", relation := "writer", object := "project:p" },
     { user := "user:b", relation := "viewer", object := "project:q" }]).2.2 ⟨1, by decide⟩
  have h2 : ("2" : String) = Nat.repr (1 + 1) := by decide
  rw [h2]
  exact h

/-- Helper: `String.length` counts the characters. -/
theorem string_length_data (s : String) : s.length = s.data.length := by
  cases s
  rfl

/-- Helper: every check queued for the live check comes from the input
list. -/
theorem lookupPass_toCheck_sub (cache : String → CacheLookup) (inv : Nat) :
    ∀ checks : List Check, ∀ c ∈ (lookupPass cache inv checks).toCheck,
      c ∈ checks := by
  intro checks
  induction checks with
  | nil => intro c hc; simp [lookupPass] at hc
  | cons c0 rest ih =>
    intro c hc
    rcases h : cache (cacheKeyOf (relationKeyOf c0)) with _ | _ | ⟨v, created⟩
    · simp only [lookupPass, h] at hc
      rcases List.mem_cons.mp hc with h1 | h1
      · exact h1 ▸ List.mem_cons_self _ _
      · exact List.mem_cons_of_mem _ (ih c h1)
    · simp only [lookupPass, h] at hc
      exact hc
    · by_cases hst : created < inv
      · simp only [lookupPass, h, if_pos hst] at hc
        rcases List.mem_cons.mp hc with h1 | h1
        · exact h1 ▸ List.mem_cons_self _ _
        · exact List.mem_cons_of_mem _ (ih c h1)
      · simp only [lookupPass, h, if_neg hst] at hc
        exact List.mem_cons_of_mem _ (ih c hc)

/-- Helper: a successful association-list lookup is a membership. -/
theorem lookupCorr_mem (m : List (String × Check)) (k : String) (v : Check)
    (h : m.lookup k = some v) : (k, v) ∈ m := by
  induction m with
  | nil => simp [List.lookup] at h
  | cons p rest ih =>
    rcases p with ⟨k0, v0⟩
    simp only [List.lookup] at h
    rcases hbe : (k == k0) with _ | _
    · simp only [hbe] at h
      exact List.mem_cons_of_mem _ (ih h)
    · simp only [hbe] at h
      injection h with hv
      have hk : k = k0 := eq_of_beq hbe
      rw [hk, ← hv]
      exact List.mem_cons_self _ _

/-- Helper: the checks stored in the correlation map are the checks of
`toCheck`. -/
theorem mkCorrMap_mem_snd (tc : List Check) (kc : String × Check)
    (h : kc ∈ mkCorrMap tc) : kc.2 ∈ tc := by
  unfold mkCorrMap at h
  obtain ⟨p, hp, hpe⟩ := List.mem_map.mp h
  have h2 := List.mem_map_of_mem Prod.snd hp
  have h3 : (tc.enum).map Prod.snd = tc := List.enumFrom_map_snd 0 tc
  rw [h3] at h2
  rw [← hpe]
  exact h2

/-- Helper: the cache-lookup pass produces a newline-terminated line per
fresh hit, and every input check lands either in a hit line or in the
live-check list. -/
theorem lookupPass_lines (cache : String → CacheLookup) (inv : Nat) :
    ∀ checks : List Check,
      (∀ c ∈ checks, '\n' ∉ (relationKeyOf c).data) →
      (∀ c ∈ checks, ∀ v created,
        cache (cacheKeyOf (relationKeyOf c)) = CacheLookup.found v created →
          '\n' ∉ v.data) →
      ∃ ls : List (List Char),
        (lookupPass cache inv checks).message.data = joinNL ls ∧
        ls.length + (lookupPass cache inv checks).toCheck.length = checks.length ∧
        (∀ l ∈ ls, lineOK l) := by
  intro checks
  induction checks with
  | nil =>
    intro _ _
    exact ⟨[], by simp [lookupPass, joinNL], by simp [lookupPass], by simp⟩
  | cons c rest ih =>
    intro hkeys hvals
    have hkr : '\n' ∉ (relationKeyOf c).data := hkeys c (List.mem_cons_self _ _)
    have hkeys' : ∀ c' ∈ rest, '\n' ∉ (relationKeyOf c').data :=
      fun c' hc' => hkeys c' (List.mem_cons_of_mem _ hc')
    have hvals' : ∀ c' ∈ rest, ∀ v created,
        cache (cacheKeyOf (relationKeyOf c')) = CacheLookup.found v created →
          '\n' ∉ v.data :=
      fun c' hc' => hvals c' (List.mem_cons_of_mem _ hc')
    rcases hc : cache (cacheKeyOf (relationKeyOf c)) with _ | _ | ⟨v, created⟩
    · obtain ⟨ls, h1, h2, h3⟩ := ih hkeys' hvals'
      refine ⟨ls, ?_, ?_, h3⟩
      · simp only [lookupPass, hc]
        exact h1
      · simp only [lookupPass, hc, List.length_cons]
        omega
    · refine ⟨[], ?_, ?_, by simp⟩
      · simp [lookupPass, hc, joinNL]
      · simp [lookupPass, hc]
    · by_cases hst : created < inv
      · obtain ⟨ls, h1, h2, h3⟩ := ih hkeys' hvals'
        refine ⟨ls, ?_, ?_, h3⟩
        · simp only [lookupPass, hc, if_pos hst]
          exact h1
        · simp only [lookupPass, hc, if_pos hst, List.length_cons]
          omega
      · obtain ⟨ls, h1, h2, h3⟩ := ih hkeys' hvals'
        have hvnl : '\n' ∉ v.data :=
          hvals c (List.mem_cons_self _ _) v created hc
        refine ⟨((relationKeyOf c).data ++ '\t' :: v.data) :: ls, ?_, ?_, ?_⟩
        · simp only [lookupPass, hc, if_neg hst]
          simp only [String.data_append, joinNL, List.flatMap_cons]
          rw [h1]
          simp [joinNL, show ("\t" : String).data = ['\t'] from rfl,
            show ("\n" : String).data = ['\n'] from rfl]
        · simp only [lookupPass, hc, if_neg hst, List.length_cons]
          omega
        · intro l hl
          rcases List.mem_cons.mp hl with h | h
          · subst h
            constructor
            · simp
            · intro hmem
              rcases List.mem_append.mp hmem with h | h
              · exact hkr h
              · rcases List.mem_cons.mp h with h | h
                · exact absurd h (by decide)
                · exact hvnl h
          · exact h3 l h

/-- Helper: the merge loop appends one newline-terminated line per response
entry whose correlation id is known. -/
theorem appendToMessage_lines (mapCorr : List (String × Check))
    (hkeys : ∀ kc ∈ mapCorr, '\n' ∉ (relationKeyOf (kc : String × Check).2).data) :
    ∀ (result : List (String × Bool)) (message : String),
      (∀ p ∈ result, ((mapCorr.lookup (p : String × Bool).1).isSome)) →
      ∃ ls : List (List Char),
        (appendToMessage message result mapCorr).data = message.data ++ joinNL ls ∧
        ls.length = result.length ∧ (∀ l ∈ ls, lineOK l) := by
  intro result
  induction result with
  | nil =>
    intro message _
    exact ⟨[], by simp [appendToMessage, joinNL], rfl, by simp⟩
  | cons p rest ih =>
    intro message hcov
    rcases p with ⟨cid, allowed⟩
    rcases hl : mapCorr.lookup cid with _ | req
    · have h0 := hcov (cid, allowed) (List.mem_cons_self _ _)
      rw [hl] at h0
      simp at h0
    · obtain ⟨ls, h1, h2, h3⟩ :=
        ih (message ++ (relationKeyOf req ++ "\t" ++
            (if allowed then "true" else "false") ++ "\n"))
          (fun p hp => hcov p (List.mem_cons_of_mem _ hp))
      have hreq : '\n' ∉ (relationKeyOf req).data :=
        hkeys (cid, req) (lookupCorr_mem mapCorr cid req hl)
      refine ⟨((relationKeyOf req).data ++ '\t' ::
          (if allowed then "true" else "false").data) :: ls, ?_, ?_, ?_⟩
      · simp only [appendToMessage, hl]
        rw [h1]
        simp [joinNL, String.data_append,
          show ("\t" : String).data = ['\t'] from rfl,
          show ("\n" : String).data = ['\n'] from rfl]
      · simp only [List.length_cons, h2]
      · intro l hl'
        rcases List.mem_cons.mp hl' with h | h
        · subst h
          constructor
          · simp
          · intro hmem
            rcases List.mem_append.mp hmem with h | h
            · exact hreq h
            · rcases List.mem_cons.mp h with h | h
              · exact absurd h (by decide)
              · cases allowed <;> revert h <;> decide
        · exact h3 l h

/-- Helper: trimming the final newline off a concatenation of newline-free,
non-empty, newline-terminated lines leaves one line per entry, a non-empty
result, and no trailing newline. -/
theorem joinNL_trim :
    ∀ ls : List (List Char), (∀ l ∈ ls, lineOK l) → ls ≠ [] →
      (joinNL ls).dropLast.count '\n' + 1 = ls.length ∧
      (joinNL ls).dropLast ≠ [] ∧
      ((joinNL ls).dropLast).getLast? ≠ some '\n' := by
  intro ls
  induction ls with
  | nil => intro _ h; exact absurd rfl h
  | cons x tl ih =>
    intro hok _
    have hx : lineOK x := hok x (List.mem_cons_self _ _)
    cases tl with
    | nil =>
      have hj : joinNL [x] = x ++ ['\n'] := by simp [joinNL]
      rw [hj, List.dropLast_concat]
      refine ⟨?_, hx.1, ?_⟩
      · simp [List.count_eq_zero.mpr hx.2]
      · intro hcontra
        exact hx.2 (List.mem_of_getLast?_eq_some hcontra)
    | cons y tl' =>
      have ihr := ih (fun l hl => hok l (List.mem_cons_of_mem _ hl)) (by simp)
      have hjoin : joinNL (x :: y :: tl') = (x ++ ['\n']) ++ joinNL (y :: tl') := by
        simp [joinNL]
      have hne2 : joinNL (y :: tl') ≠ [] := by simp [joinNL]
      rw [hjoin, List.dropLast_append_of_ne_nil (x ++ ['\n']) hne2]
      refine ⟨?_, by simp, ?_⟩
      · have hxc : x.count '\n' = 0 := List.count_eq_zero.mpr hx.2
        have h1 := ihr.1
        simp only [List.count_append, hxc, List.length_cons] at h1 ⊢
        have h2 : List.count '\n' ['\n'] = 1 := by decide
        rw [h2]
        omega
      · rw [List.getLast?_append]
        rcases hg : ((joinNL (y :: tl')).dropLast).getLast? with _ | a
        · exact absurd (List.getLast?_eq_none_iff.mp hg) ihr.2.1
        · have := ihr.2.2
          rw [hg] at this
          simpa [Option.or] using this

/-- C5 (amended): for every non-empty input list of N checks — provided the
gateway's batch response (used only when some checks fall back to the live
store) carries known correlation ids and exactly one entry per queued check,
and keys and cached values are newline-free — the output of
`CheckRelationships` has exactly N lines (newline count N-1), is non-empty,
and has no trailing newline.  The lines are NOT in input order in general:
fresh cache-hit lines come first (in input order), live-check lines follow
(in response iteration order). -/
theorem C5_lines (cache : String → CacheLookup) (checks : List Check)
    (batchResult : List (String × Bool)) (invT : Nat)
    (hne : checks ≠ [])
    (hinv : getLastCacheInvalidation cache = InvRes.ok invT)
    (hkeys : ∀ c ∈ checks, '\n' ∉ (relationKeyOf c).data)
    (hvals : ∀ c ∈ checks, ∀ v created,
      cache (cacheKeyOf (relationKeyOf c)) = CacheLookup.found v created →
        '\n' ∉ v.data)
    (hcov : ∀ p ∈ batchResult,
      ((mkCorrMap (lookupPass cache invT checks).toCheck).lookup
        (p : String × Bool).1).isSome)
    (hlen : batchResult.length = (lookupPass cache invT checks).toCheck.length) :
    ∃ s, CheckRelationships cache false batchResult checks = CheckRes.ok s ∧
      s.data.count '\n' + 1 = checks.length ∧ s.data ≠ [] ∧
      s.data.getLast? ≠ some '\n' := by
  obtain ⟨ls, hmsg, hcount, hok⟩ := lookupPass_lines cache invT checks hkeys hvals
  unfold CheckRelationships
  rw [if_neg hne, hinv]
  simp only []
  by_cases htc : (lookupPass cache invT checks).toCheck = []
  · rw [if_pos htc]
    have hlsne : ls ≠ [] := by
      intro hnil
      subst hnil
      rw [htc] at hcount
      simp at hcount
      exact hne (List.length_eq_zero.mp hcount.symm)
    have hlslen : ls.length = checks.length := by
      rw [htc] at hcount
      simpa using hcount
    obtain ⟨hc1, hc2, hc3⟩ := joinNL_trim ls hok hlsne
    have hmne : ¬ ((lookupPass cache invT checks).message.length < 1) := by
      rw [string_length_data, hmsg]
      cases ls with
      | nil => exact absurd rfl hlsne
      | cons a tl => simp [joinNL]
    rw [if_neg hmne]
    refine ⟨trimLastByte (lookupPass cache invT checks).message, rfl, ?_, ?_, ?_⟩
    · have hdata : (trimLastByte (lookupPass cache invT checks).message).data =
          (joinNL ls).dropLast := by
        simp [trimLastByte, hmsg]
      rw [hdata, hc1, hlslen]
    · have hdata : (trimLastByte (lookupPass cache invT checks).message).data =
          (joinNL ls).dropLast := by
        simp [trimLastByte, hmsg]
      rw [hdata]
      exact hc2
    · have hdata : (trimLastByte (lookupPass cache invT checks).message).data =
          (joinNL ls).dropLast := by
        simp [trimLastByte, hmsg]
      rw [hdata]
      exact hc3
  · rw [if_neg htc]
    have hbne : ¬ (batchResult = []) := by
      intro h0
      rw [h0] at hlen
      simp at hlen
      exact htc (List.length_eq_zero.mp hlen.symm)
    simp only [Bool.false_eq_true, if_false]
    rw [if_neg hbne]
    have hkeys2 : ∀ kc ∈ mkCorrMap (lookupPass cache invT checks).toCheck,
        '\n' ∉ (relationKeyOf (kc : String × Check).2).data := by
      intro kc hkc
      have h1 := mkCorrMap_mem_snd _ kc hkc
      have h2 := lookupPass_toCheck_sub cache invT checks kc.2 h1
      exact hkeys kc.2 h2
    obtain ⟨ls2, hmsg2, hlen2, hok2⟩ :=
      appendToMessage_lines (mkCorrMap (lookupPass cache invT checks).toCheck)
        hkeys2 batchResult (lookupPass cache invT checks).message hcov
    have hall : (appendToMessage (lookupPass cache invT checks).message
        batchResult (mkCorrMap (lookupPass cache invT checks).toCheck)).data =
        joinNL (ls ++ ls2) := by
      rw [hmsg2, hmsg]
      simp [joinNL]
    have hlsne : ls ++ ls2 ≠ [] := by
      intro h0
      have h1 : ls = [] ∧ ls2 = [] := by simpa using h0
      rw [h1.2] at hlen2
      have : batchResult = [] := List.length_eq_zero.mp (by simpa using hlen2.symm)
      exact hbne this
    have hokall : ∀ l ∈ ls ++ ls2, lineOK l := by
      intro l hl
      rcases List.mem_append.mp hl with h | h
      · exact hok l h
      · exact hok2 l h
    obtain ⟨hc1, hc2, hc3⟩ := joinNL_trim (ls ++ ls2) hokall hlsne
    have hmne : ¬ ((appendToMessage (lookupPass cache invT checks).message
        batchResult (mkCorrMap (lookupPass cache invT checks).toCheck)).length < 1) := by
      rw [string_length_data, hall]
      cases hll : ls ++ ls2 with
      | nil => exact absurd hll hlsne
      | cons a tl => simp [joinNL]
    rw [if_neg hmne]
    refine ⟨_, rfl, ?_, ?_, ?_⟩
    · have hdata : (trimLastByte (appendToMessage
          (lookupPass cache invT checks).message batchResult
          (mkCorrMap (lookupPass cache invT checks).toCheck))).data =
          (joinNL (ls ++ ls2)).dropLast := by
        simp [trimLastByte, hall]
      rw [hdata, hc1]
      rw [List.length_append, hlen2, hlen]
      omega
    · have hdata : (trimLastByte (appendToMessage
          (lookupPass cache invT checks).message batchResult
          (mkCorrMap (lookupPass cache invT checks).toCheck))).data =
          (joinNL (ls ++ ls2)).dropLast := by
        simp [trimLastByte, hall]
      rw [hdata]
      exact hc2
    · have hdata : (trimLastByte (appendToMessage
          (lookupPass cache invT checks).message batchResult
          (mkCorrMap (lookupPass cache invT checks).toCheck))).data =
          (joinNL (ls ++ ls2)).dropLast := by
        simp [trimLastByte, hall]
      rw [hdata]
      exact hc3

/-- Witness for C5: one cache miss plus one fresh hit with a one-entry batch
response — the output has exactly two lines and no trailing newline. -/
theorem C5_lines_witness :
    ∃ s, CheckRelationships
      (fun k => if k = "inv" then CacheLookup.notFound
        else if k = cacheKeyOf "project:two#writer@user:alice" then CacheLookup.found "true" 3
        else CacheLookup.notFound) false [("1", true)]
      [{ user := "user:alice", relation := "writer", object := "project:one" },
       { user := "user:alice", relation := "writer", object := "project:two" }] =
      CheckRes.ok s ∧
    s.data.count '\n' + 1 = 2 ∧ s.data ≠ [] ∧ s.data.getLast? ≠ some '\n' := by
  have hvals : ∀ c ∈
      [{ user := "user:alice", relation := "writer", object := "project:one" },
       ({ user := "user:alice", relation := "writer", object := "project:two" } : Check)],
      ∀ v created,
        (fun k => if k = "inv" then CacheLookup.notFound
          else if k = cacheKeyOf "project:two#writer@user:alice" then CacheLookup.found "true" 3
          else CacheLookup.notFound) (cacheKeyOf (relationKeyOf c)) =
            CacheLookup.found v created → '\n' ∉ v.data := by
    intro c hc v created hfound
    rcases List.mem_cons.mp hc with h | h
    · subst h
      have he : (fun k => if k = "inv" then CacheLookup.notFound
          else if k = cacheKeyOf "project:two#writer@user:alice" then CacheLookup.found "true" 3
          else CacheLookup.notFound)
          (cacheKeyOf (relationKeyOf
            { user := "user:alice", relation := "writer", object := "project:one" })) =
          CacheLookup.notFound := by decide
      rw [he] at hfound
      simp at hfound
    · rcases List.mem_cons.mp h with h | h
      · subst h
        have he : (fun k => if k = "inv" then CacheLookup.notFound
            else if k = cacheKeyOf "project:two#writer@user:alice" then CacheLookup.found "true" 3
            else CacheLookup.notFound)
            (cacheKeyOf (relationKeyOf
              { user := "user:alice", relation := "writer", object := "project:two" })) =
            CacheLookup.found "true" 3 := by decide
        rw [he] at hfound
        injection hfound with hv hc2
        rw [← hv]
        decide
      · simp at h
  obtain ⟨s, h1, h2, h3, h4⟩ := C5_lines
    (fun k => if k = "inv" then CacheLookup.notFound
      else if k = cacheKeyOf "project:two#writer@user:alice" then CacheLookup.found "true" 3
      else CacheLookup.notFound)
    [{ user := "user:alice", relation := "writer", object := "project:one" },
     { user := "user:alice", relation := "writer", object := "project:two" }]
    [("1", true)] 0
    (by decide) (by decide) (by decide)
    hvals (by decide) (by decide)
  exact ⟨s, h1, by simpa using h2, h3, h4⟩
